import Mathlib

/-!
Shallow embedding of the receipt-ingestion-and-normalization flow of the
AI receipt analyzer single-page application, together with proofs of the
behavioural claims about it.  Texts are modelled as `List Char`; JSON
numbers are modelled exactly, as integer decimals (no claim depends on
floating-point rounding); the external collaborators (storage upload, AI
completion, database persistence) are modelled as oracle inputs carrying
either a result or a failure.
-/

namespace ReceiptApp

/-! ## Named character constants: backtick, double quote, backslash, braces -/

def bq : Char := Char.ofNat 96

def dq : Char := Char.ofNat 34

def bslash : Char := Char.ofNat 92

def lbrace : Char := Char.ofNat 123

def rbrace : Char := Char.ofNat 125

/-! ## JavaScript string helpers used by `analyzeReceipt`

`jsWhitespace` covers the ASCII characters of the regex class `\s` (and of
`String.prototype.trim`); `jsonWhitespace` is the strict JSON whitespace
set used by `JSON.parse`. -/

def jsWhitespace (c : Char) : Bool :=
  (c == ' ') || (c == '\t') || (c == '\n') || (c == '\r') ||
    (c == Char.ofNat 11) || (c == Char.ofNat 12)

def jsonWhitespace (c : Char) : Bool :=
  (c == ' ') || (c == '\t') || (c == '\n') || (c == '\r')

def trimLeftJS (s : List Char) : List Char := s.dropWhile jsWhitespace

def trimRightJS (s : List Char) : List Char := (s.reverse.dropWhile jsWhitespace).reverse

/-- Model of `text.trim()`. -/
def jsTrim (s : List Char) : List Char := trimRightJS (trimLeftJS s)

/-- Model of `String.prototype.startsWith` on character lists. -/
def startsWithL : List Char → List Char → Bool
  | [], _ => true
  | _ :: _, [] => false
  | p :: ps, c :: cs => p == c && startsWithL ps cs

/-- Model of `String.prototype.endsWith` on character lists. -/
def endsWithL (p s : List Char) : Bool := startsWithL p.reverse s.reverse

def dropRightN (n : Nat) (s : List Char) : List Char := (s.reverse.drop n).reverse

/-- The opening marker of a JSON-tagged Markdown code fence. -/
def fenceJson : List Char := [bq, bq, bq, 'j', 's', 'o', 'n']

/-- The generic Markdown code fence marker. -/
def fence3 : List Char := [bq, bq, bq]

/-- Model of `cleanedText.replace(/^TAG\s*:/ ...)`, i.e. of the anchored
replacements `replace(/^```json\s*:/, '')` and `replace(/^```\s*:/, '')`:
when the tag is a prefix, the tag and all whitespace following it are
removed; otherwise the text is unchanged. -/
def stripOpenFence (tag s : List Char) : List Char :=
  if startsWithL tag s then (s.drop tag.length).dropWhile jsWhitespace else s

/-- Model of `replace(/\s*BQBQBQ$/, '')` (closing-fence removal): the regex
matches only when the text ends in three backticks, and its leftmost match
removes that marker together with the maximal whitespace run before it. -/
def stripCloseFence (s : List Char) : List Char :=
  if endsWithL fence3 s then trimRightJS (dropRightN 3 s) else s

/-- The fence-stripping step of `analyzeReceipt`: trim, then strip a
leading ```json fence or else a generic ``` fence (each with its closing
marker). -/
def cleanText (text : List Char) : List Char :=
  let t := jsTrim text
  if startsWithL fenceJson t then stripCloseFence (stripOpenFence fenceJson t)
  else if startsWithL fence3 t then stripCloseFence (stripOpenFence fence3 t)
  else t

/-! ## JSON values and a model of `JSON.parse`

`JSON.parse` is a JavaScript builtin, not code of this repository; it is
modelled here by an executable recursive-descent parser over the JSON
grammar (objects keep their source key order; a duplicated key is looked
up last-occurrence-first below, matching JavaScript's last-wins object
literals). -/

/-- A JSON number, exactly: the denoted value is `mantissa * 10 ^ exp10`.
This decimal representation avoids any rounding (JavaScript's binary
floating point plays no role in the claims) and keeps the parser's
arithmetic purely integral. -/
structure JNum where
  mantissa : Int
  exp10 : Int
deriving DecidableEq

inductive JSValue where
  | null
  | bool (b : Bool)
  | num (n : JNum)
  | str (s : List Char)
  | arr (elems : List JSValue)
  | obj (fields : List (List Char × JSValue))

def skipWs (s : List Char) : List Char := s.dropWhile jsonWhitespace

def readDigits : Nat → List Char → Nat × List Char
  | acc, c :: r => if c.isDigit then readDigits (acc * 10 + (c.toNat - 48)) r else (acc, c :: r)
  | acc, [] => (acc, [])

def readDigitsCount : Nat → Nat → List Char → Nat × Nat × List Char
  | acc, cnt, c :: r =>
    if c.isDigit then readDigitsCount (acc * 10 + (c.toNat - 48)) (cnt + 1) r
    else (acc, cnt, c :: r)
  | acc, cnt, [] => (acc, cnt, [])

def headIsDigit : List Char → Bool
  | c :: _ => c.isDigit
  | [] => false

/-- Fractional part `.ddd` of a JSON number, as the digit block's value and
digit count; consumed only when well formed, otherwise left for the caller
(whose follow-up then fails exactly where `JSON.parse` reports a syntax
error). -/
def parseFrac (s : List Char) : Nat × Nat × List Char :=
  match s with
  | c :: r =>
    if c = '.' then
      if headIsDigit r then readDigitsCount 0 0 r
      else (0, 0, s)
    else (0, 0, s)
  | [] => (0, 0, [])

/-- Exponent part `e±ddd` of a JSON number, consumed only when well formed. -/
def parseExp (s : List Char) : Int × List Char :=
  match s with
  | c :: r =>
    if c = 'e' ∨ c = 'E' then
      match r with
      | c2 :: r2 =>
        if c2 = '+' then
          if headIsDigit r2 then
            let (n, rest) := readDigits 0 r2
            ((n : Int), rest)
          else (0, s)
        else if c2 = '-' then
          if headIsDigit r2 then
            let (n, rest) := readDigits 0 r2
            (-(n : Int), rest)
          else (0, s)
        else if c2.isDigit then
          let (n, rest) := readDigits 0 (c2 :: r2)
          ((n : Int), rest)
        else (0, s)
      | [] => (0, s)
    else (0, s)
  | [] => (0, [])

/-- Assemble integer part, fraction digits and exponent into the denoted
decimal `((n * 10 ^ cnt + f) : Int) * 10 ^ (e - cnt)`. -/
def assembleNum (n f cnt : Nat) (e : Int) : JNum :=
  ⟨((n * 10 ^ cnt + f : Nat) : Int), e - (cnt : Int)⟩

/-- Unsigned JSON number: `0` or a nonzero digit followed by digits (JSON
forbids redundant leading zeros), then optional fraction and exponent. -/
def parseUnsigned (s : List Char) : Option (JNum × List Char) :=
  match s with
  | c :: r =>
    if c = '0' then
      let (f, cnt, r2) := parseFrac r
      let (e, r3) := parseExp r2
      some (assembleNum 0 f cnt e, r3)
    else if c.isDigit then
      let (n, r1) := readDigits (c.toNat - 48) r
      let (f, cnt, r2) := parseFrac r1
      let (e, r3) := parseExp r2
      some (assembleNum n f cnt e, r3)
    else none
  | [] => none

def parseNumber (s : List Char) : Option (JNum × List Char) :=
  match s with
  | c :: r =>
    if c = '-' then (parseUnsigned r).map (fun p => (⟨-p.1.mantissa, p.1.exp10⟩, p.2))
    else parseUnsigned (c :: r)
  | [] => none

def hexVal (c : Char) : Option Nat :=
  if c.isDigit then some (c.toNat - 48)
  else if 'a' ≤ c ∧ c ≤ 'f' then some (c.toNat - 87)
  else if 'A' ≤ c ∧ c ≤ 'F' then some (c.toNat - 55)
  else none

/-- Body of a JSON string, after the opening quote: the returned pair is
the decoded contents and the input after the closing quote.  Raw control
characters are rejected, the JSON escapes are decoded. -/
def parseStringBody : List Char → Option (List Char × List Char)
  | [] => none
  | c :: r =>
    if c = dq then some ([], r)
    else if c = bslash then
      match r with
      | [] => none
      | e :: r2 =>
        if e = dq ∨ e = bslash ∨ e = '/' then
          (parseStringBody r2).map (fun p => (e :: p.1, p.2))
        else if e = 'b' then (parseStringBody r2).map (fun p => (Char.ofNat 8 :: p.1, p.2))
        else if e = 'f' then (parseStringBody r2).map (fun p => (Char.ofNat 12 :: p.1, p.2))
        else if e = 'n' then (parseStringBody r2).map (fun p => ('\n' :: p.1, p.2))
        else if e = 'r' then (parseStringBody r2).map (fun p => ('\r' :: p.1, p.2))
        else if e = 't' then (parseStringBody r2).map (fun p => ('\t' :: p.1, p.2))
        else if e = 'u' then
          match r2 with
          | h1 :: h2 :: h3 :: h4 :: r3 =>
            match hexVal h1, hexVal h2, hexVal h3, hexVal h4 with
            | some a, some b, some c2, some d =>
              (parseStringBody r3).map
                (fun p => (Char.ofNat (((a * 16 + b) * 16 + c2) * 16 + d) :: p.1, p.2))
            | _, _, _, _ => none
          | _ => none
        else none
    else if c.toNat < 32 then none
    else (parseStringBody r).map (fun p => (c :: p.1, p.2))

def trueLit : List Char := ['t', 'r', 'u', 'e']

def falseLit : List Char := ['f', 'a', 'l', 's', 'e']

def nullLit : List Char := ['n', 'u', 'l', 'l']

/-- The three mutually recursive JSON parsing procedures, packaged at each
fuel level so that the recursion is structural on the fuel (and hence
reduces definitionally).  `value` expects its input to start at a token
character; `members` parses object members starting at a key; `elems`
parses array elements starting at a value. -/
structure ParserPack where
  value : List Char → Option (JSValue × List Char)
  members : List Char → Option (List (List Char × JSValue) × List Char)
  elems : List Char → Option (List JSValue × List Char)

def mkParsers : Nat → ParserPack
  | 0 => ⟨fun _ => none, fun _ => none, fun _ => none⟩
  | f + 1 =>
    let P := mkParsers f
    { value := fun s =>
        match s with
        | [] => none
        | c :: r =>
          if c = lbrace then
            match skipWs r with
            | [] => none
            | c2 :: r2 =>
              if c2 = rbrace then some (JSValue.obj [], r2)
              else (P.members (c2 :: r2)).map (fun p => (JSValue.obj p.1, p.2))
          else if c = '[' then
            match skipWs r with
            | [] => none
            | c2 :: r2 =>
              if c2 = ']' then some (JSValue.arr [], r2)
              else (P.elems (c2 :: r2)).map (fun p => (JSValue.arr p.1, p.2))
          else if c = dq then
            (parseStringBody r).map (fun p => (JSValue.str p.1, p.2))
          else if c = 't' then
            if startsWithL trueLit (c :: r) then some (JSValue.bool true, r.drop 3) else none
          else if c = 'f' then
            if startsWithL falseLit (c :: r) then some (JSValue.bool false, r.drop 4) else none
          else if c = 'n' then
            if startsWithL nullLit (c :: r) then some (JSValue.null, r.drop 3) else none
          else (parseNumber (c :: r)).map (fun p => (JSValue.num p.1, p.2)),
      members := fun s =>
        match s with
        | [] => none
        | c :: r =>
          if c = dq then
            match parseStringBody r with
            | none => none
            | some (key, r2) =>
              match skipWs r2 with
              | ':' :: r3 =>
                match P.value (skipWs r3) with
                | none => none
                | some (v, r4) =>
                  match skipWs r4 with
                  | ',' :: r5 => (P.members (skipWs r5)).map (fun p => ((key, v) :: p.1, p.2))
                  | c2 :: r5 => if c2 = rbrace then some ([(key, v)], r5) else none
                  | [] => none
              | _ => none
          else none,
      elems := fun s =>
        match P.value s with
        | none => none
        | some (v, r2) =>
          match skipWs r2 with
          | ',' :: r3 => (P.elems (skipWs r3)).map (fun p => (v :: p.1, p.2))
          | c2 :: r3 => if c2 = ']' then some ([v], r3) else none
          | [] => none }

def parseValue (fuel : Nat) (s : List Char) : Option (JSValue × List Char) :=
  (mkParsers fuel).value s

/-- Model of `JSON.parse` on the cleaned response text: parse one value
surrounded by optional JSON whitespace; anything left over is a syntax
error.  The fuel bound is generous: every recursive descent step consumes
input, so `16 * length + 16` can never be exhausted on text of this
length. -/
def jsonParse (s : List Char) : Option JSValue :=
  match parseValue (16 * s.length + 16) (skipWs s) with
  | some (v, rest) => if skipWs rest = [] then some v else none
  | none => none

/-! ## Property access and JavaScript truthiness -/

/-- Last-occurrence-wins lookup, matching how duplicate keys behave in a
JavaScript object built by `JSON.parse`. -/
def lookupKV : List (List Char × JSValue) → List Char → Option JSValue
  | [], _ => none
  | (k', v) :: r, k =>
    match lookupKV r k with
    | some w => some w
    | none => if k' = k then some v else none

/-- Model of `parsedData.key`: a present key's value, or `none` standing
for JavaScript's `undefined`.  (On `null` the real property access throws
a `TypeError`, which the same `catch` block turns into the very same
parse-failure path that the falsy check would take, so modelling it as
`undefined` preserves every observable of the flow.) -/
def jsGet (v : JSValue) (k : List Char) : Option JSValue :=
  match v with
  | .obj kvs => lookupKV kvs k
  | _ => none

/-- JavaScript truthiness of a possibly-undefined value: `undefined`,
`null`, `false`, `0` and the empty string are falsy; every object and
array (even empty) is truthy. -/
def truthy : Option JSValue → Bool
  | none => false
  | some .null => false
  | some (.bool b) => b
  | some (.num n) => decide (n.mantissa ≠ 0)
  | some (.str s) => decide (s ≠ [])
  | some (.arr _) => true
  | some (.obj _) => true

def kMerchant : List Char := "merchant".toList

def kTotal : List Char := "total".toList

def kItems : List Char := "items".toList

/-- The required-field validation of `analyzeReceipt`: the code throws when
`!parsedData.merchant || !parsedData.total || !parsedData.items`, so the
record is accepted exactly when all three accesses are truthy. -/
def validateReceipt (v : JSValue) : Bool :=
  truthy (jsGet v kMerchant) && truthy (jsGet v kTotal) && truthy (jsGet v kItems)

/-- Model of `parsedData.items.length` as it appears in the success toast:
defined for arrays and strings, `undefined` otherwise. -/
def itemsLenOf (v : JSValue) : Option Nat :=
  match jsGet v kItems with
  | some (.arr xs) => some xs.length
  | some (.str s) => some s.length
  | _ => none

/-! ## The extraction flow `analyzeReceipt`

The three collaborator boundaries are oracle inputs: what the storage
upload, the AI completion and the database `create` call would return on
this run.  The function returns the final component state together with
the ordered trace of its observable effects. -/

inductive FailKind where
  | parse
  | general
deriving DecidableEq

inductive Event where
  | setAnalyzing (b : Bool)
  | uploadCall
  | aiCall
  | publish (v : JSValue)
  | dbCall
  | dbWarn
  | toastSuccess (itemCount : Option Nat) (merchant : Option JSValue)
  | toastFailure (kind : FailKind)

structure Oracles where
  upload : Except Unit (List Char)
  ai : Except Unit (List Char)
  db : Except Unit Unit

structure RunResult where
  store : Option JSValue
  analyzing : Bool
  events : List Event

/-- Shallow embedding of `analyzeReceipt`, branch for branch: set the
analyzing flag; upload (outer catch on failure); call the AI (outer catch
on failure); clean and parse the text and validate it (inner catch, with
the parse-failure toast, on either failure); publish the parsed record;
attempt persistence, logging and swallowing its failure; emit the success
toast; finally reset the analyzing flag on every path. -/
def analyzeReceipt (o : Oracles) (store0 : Option JSValue) : RunResult :=
  match o.upload with
  | .error _ =>
    ⟨store0, false, [.setAnalyzing true, .uploadCall, .toastFailure .general, .setAnalyzing false]⟩
  | .ok _publicUrl =>
    match o.ai with
    | .error _ =>
      ⟨store0, false,
        [.setAnalyzing true, .uploadCall, .aiCall, .toastFailure .general, .setAnalyzing false]⟩
    | .ok text =>
      match jsonParse (cleanText text) with
      | none =>
        ⟨store0, false,
          [.setAnalyzing true, .uploadCall, .aiCall, .toastFailure .parse, .setAnalyzing false]⟩
      | some parsed =>
        if validateReceipt parsed then
          match o.db with
          | .ok _ =>
            ⟨some parsed, false,
              [.setAnalyzing true, .uploadCall, .aiCall, .publish parsed, .dbCall,
                .toastSuccess (itemsLenOf parsed) (jsGet parsed kMerchant), .setAnalyzing false]⟩
          | .error _ =>
            ⟨some parsed, false,
              [.setAnalyzing true, .uploadCall, .aiCall, .publish parsed, .dbCall, .dbWarn,
                .toastSuccess (itemsLenOf parsed) (jsGet parsed kMerchant), .setAnalyzing false]⟩
        else
          ⟨store0, false,
            [.setAnalyzing true, .uploadCall, .aiCall, .toastFailure .parse, .setAnalyzing false]⟩

/-! ## The conversational Q&A bridge `handleChatMessage` -/

def noReceiptReply : List Char :=
  "Please upload a receipt first to start chatting about it.".toList

def chatErrorReply : List Char :=
  "Sorry, I encountered an error processing your message. Please try again.".toList

/-- Shallow embedding of `handleChatMessage`: the returned pair is the
reply string and whether the AI-completion collaborator was invoked. -/
def handleChatMessage (ai : Except Unit (List Char)) (store : Option JSValue)
    (_message : List Char) : List Char × Bool :=
  match store with
  | none => (noReceiptReply, false)
  | some _ =>
    match ai with
    | .ok text => (text, true)
    | .error _ => (chatErrorReply, true)

/-! ## File intake: `handleDrop` and `handleFileSelect` -/

structure JSFile where
  name : List Char
  type : List Char
deriving DecidableEq

structure IntakeState where
  dragActive : Bool
  selectedFile : Option JSFile
  uploads : List JSFile
deriving DecidableEq

def imageTypeTag : List Char := "image/".toList

/-- Shallow embedding of `handleDrop`: drag state is cleared, then the
first dropped file is accepted (recorded and forwarded to `onUpload`)
only when its declared media type starts with `image/`. -/
def handleDrop (files : List JSFile) (st : IntakeState) : IntakeState :=
  let st1 := { st with dragActive := false }
  match files with
  | [] => st1
  | f :: _ =>
    if startsWithL imageTypeTag f.type then
      { st1 with selectedFile := some f, uploads := st1.uploads ++ [f] }
    else st1

/-- Shallow embedding of `handleFileSelect`: the first file of the change
event is recorded and forwarded unconditionally — this handler performs no
media-type check of its own (the `accept` attribute only filters the
browser's picker dialog). -/
def handleFileSelect (files : List JSFile) (st : IntakeState) : IntakeState :=
  match files with
  | [] => st
  | f :: _ => { st with selectedFile := some f, uploads := st.uploads ++ [f] }

/-! ## Renderer: the totals breakdown of `ReceiptAnalysis` -/

structure LineItem where
  name : List Char
  price : Rat
  quantity : Option Rat

structure ReceiptDataR where
  merchant : List Char
  date : List Char
  total : Rat
  subtotal : Option Rat
  tax : Option Rat
  items : List LineItem
  category : Option (List Char)

inductive TotalsLine where
  | subtotalLine (amount : Rat)
  | taxLine (amount : Rat)
  | separator
  | totalLine (amount : Rat)
deriving DecidableEq

/-- Truthiness of an optional numeric field, as tested by the JSX guards
`data.subtotal && ...` and `data.tax && ...`. -/
def numTruthy : Option Rat → Bool
  | none => false
  | some q => decide (q ≠ 0)

/-- Shallow embedding of the totals breakdown section of
`ReceiptAnalysis`: a subtotal row when `data.subtotal` is truthy, a tax
row when `data.tax` is truthy, then the separator and the unconditional
total row. -/
def renderTotals (d : ReceiptDataR) : List TotalsLine :=
  (if numTruthy d.subtotal then [TotalsLine.subtotalLine (d.subtotal.getD 0)] else [])
    ++ (if numTruthy d.tax then [TotalsLine.taxLine (d.tax.getD 0)] else [])
    ++ [TotalsLine.separator, TotalsLine.totalLine d.total]

/-! ## Fence wrappings of a raw response text -/

/-- A raw text wrapped in a ```json Markdown fence. -/
def wrapJsonFence (t : List Char) : List Char := fenceJson ++ '\n' :: (t ++ '\n' :: fence3)

/-- A raw text wrapped in a generic ``` Markdown fence. -/
def wrapGenFence (t : List Char) : List Char := fence3 ++ '\n' :: (t ++ '\n' :: fence3)

/-! ## Ordering of trace events -/

/-- `a` occurs strictly before `b` in the trace `l`. -/
def occursBefore (a b : Event) (l : List Event) : Prop :=
  ∃ i j, i < j ∧ l.get? i = some a ∧ l.get? j = some b

/-! ## Concrete sample inputs, used to exercise the theorems -/

/-- A response that is not JSON however it is cleaned. -/
def rawNotJson : List Char := "not json".toList

/-- A syntactically valid response missing the `merchant` field. -/
def rawNoMerchant : List Char := "\x7b\x22total\x22:1,\x22items\x22:[1]\x7d".toList

def valNoMerchant : JSValue :=
  JSValue.obj [("total".toList, JSValue.num ⟨1, 0⟩),
    ("items".toList, JSValue.arr [JSValue.num ⟨1, 0⟩])]

/-- A syntactically valid response whose `merchant` is the empty string. -/
def rawEmptyMerchant : List Char :=
  "\x7b\x22merchant\x22:\x22\x22,\x22total\x22:3,\x22items\x22:[0]\x7d".toList

def valEmptyMerchant : JSValue :=
  JSValue.obj [("merchant".toList, JSValue.str []),
    ("total".toList, JSValue.num ⟨3, 0⟩),
    ("items".toList, JSValue.arr [JSValue.num ⟨0, 0⟩])]

/-- A response that passes required-field validation. -/
def rawGoodReceipt : List Char :=
  "\x7b\x22merchant\x22:\x22Shop\x22,\x22total\x22:5,\x22items\x22:[1]\x7d".toList

def valGoodReceipt : JSValue :=
  JSValue.obj [("merchant".toList, JSValue.str "Shop".toList),
    ("total".toList, JSValue.num ⟨5, 0⟩),
    ("items".toList, JSValue.arr [JSValue.num ⟨1, 0⟩])]

/-- A small valid JSON object text. -/
def sampleObjText : List Char := "\x7b\x22a\x22:1\x7d".toList

def sampleObjFields : List (List Char × JSValue) := [("a".toList, JSValue.num ⟨1, 0⟩)]

/-- A file whose declared media type is not an image type. -/
def pdfFile : JSFile := ⟨"doc.pdf".toList, "application/pdf".toList⟩

def intakeInit : IntakeState := ⟨false, none, []⟩

/-- A populated record whose `subtotal` field is present but zero. -/
def zeroSubtotalReceipt : ReceiptDataR :=
  ⟨"Shop".toList, "01/02/2024".toList, 10, some 0, none, [], none⟩

/-! ## Lemmas about `dropWhile`, trimming and fence stripping -/

theorem dropWhile_all {p : Char → Bool} {xs : List Char} (ys : List Char)
    (h : ∀ x ∈ xs, p x = true) : (xs ++ ys).dropWhile p = ys.dropWhile p := by
  induction xs with
  | nil => rfl
  | cons x t ih =>
    have hx : p x = true := h x (List.mem_cons_self x t)
    simp only [List.cons_append, List.dropWhile_cons, hx, if_true]
    exact ih fun a ha => h a (List.mem_cons_of_mem x ha)

theorem dropWhile_append_of_ne_nil {p : Char → Bool} {xs : List Char} {c : Char}
    {s' : List Char} (h : xs.dropWhile p = c :: s') (ys : List Char) :
    (xs ++ ys).dropWhile p = c :: (s' ++ ys) := by
  induction xs with
  | nil => simp [List.dropWhile] at h
  | cons x t ih =>
    by_cases hx : p x = true
    · simp only [List.dropWhile_cons, hx, if_true] at h
      simp only [List.cons_append, List.dropWhile_cons, hx, if_true]
      exact ih h
    · simp only [List.dropWhile_cons] at h
      rw [if_neg hx] at h
      obtain ⟨rfl, rfl⟩ := by exact List.cons.inj h
      simp only [List.cons_append, List.dropWhile_cons]
      rw [if_neg hx]

theorem dropWhile_append_singleton {p : Char → Bool} {c : Char} (h : p c = false)
    (xs : List Char) : (xs ++ [c]).dropWhile p = xs.dropWhile p ++ [c] := by
  induction xs with
  | nil => simp [List.dropWhile, h]
  | cons x t ih =>
    by_cases hx : p x = true
    · simp only [List.cons_append, List.dropWhile_cons, hx, if_true]
      exact ih
    · simp only [List.cons_append, List.dropWhile_cons]
      rw [if_neg hx, if_neg hx, List.cons_append]

theorem dropWhile_sub {p q : Char → Bool} (hsub : ∀ x, q x = true → p x = true)
    {xs : List Char} {c : Char} {s' : List Char} (hc : p c = false)
    (h : xs.dropWhile q = c :: s') : xs.dropWhile p = c :: s' := by
  induction xs with
  | nil => simp [List.dropWhile] at h
  | cons x t ih =>
    by_cases hx : q x = true
    · simp only [List.dropWhile_cons, hx, if_true] at h
      simp only [List.dropWhile_cons, hsub x hx, if_true]
      exact ih h
    · simp only [List.dropWhile_cons] at h
      rw [if_neg hx] at h
      obtain ⟨rfl, rfl⟩ := by exact List.cons.inj h
      simp only [List.dropWhile_cons]
      rw [if_neg (by simpa using hc)]

theorem jsonWhitespace_le_js {c : Char} (h : jsonWhitespace c = true) :
    jsWhitespace c = true := by
  simp only [jsonWhitespace, Bool.or_eq_true, beq_iff_eq] at h
  rcases h with ((h | h) | h) | h <;> subst h <;> decide

theorem trimLeft_cons_of_neg {c : Char} {s : List Char} (h : jsWhitespace c = false) :
    trimLeftJS (c :: s) = c :: s := by
  simp [trimLeftJS, List.dropWhile_cons, h]

theorem trimRight_of_reverse_head {s : List Char} {c : Char} {X : List Char}
    (hr : s.reverse = c :: X) (h : jsWhitespace c = false) : trimRightJS s = s := by
  have hd : s.reverse.dropWhile jsWhitespace = c :: X := by
    simp [hr, List.dropWhile_cons, h]
  unfold trimRightJS
  rw [hd, ← hr, List.reverse_reverse]

theorem trimRight_cons_of_neg {c : Char} {s : List Char} (h : jsWhitespace c = false) :
    trimRightJS (c :: s) = c :: trimRightJS s := by
  simp only [trimRightJS, List.reverse_cons]
  rw [dropWhile_append_singleton h]
  simp

theorem trimRight_append_ws {w : List Char} (hw : ∀ x ∈ w, jsWhitespace x = true)
    (xs : List Char) : trimRightJS (xs ++ w) = trimRightJS xs := by
  simp only [trimRightJS, List.reverse_append]
  rw [dropWhile_all xs.reverse (by simpa using hw)]

theorem startsWithL_append_self (p rest : List Char) : startsWithL p (p ++ rest) = true := by
  induction p with
  | nil => rfl
  | cons x t ih => simp [startsWithL, ih]

/-! ## The first character of a successfully parsed text is a JSON token
character, hence neither whitespace nor a backtick -/

theorem digit_not_ws {c : Char} (h : c.isDigit = true) : jsWhitespace c = false := by
  by_contra hw
  rw [Bool.not_eq_false] at hw
  simp only [jsWhitespace, Bool.or_eq_true, beq_iff_eq] at hw
  rcases hw with ((((hw | hw) | hw) | hw) | hw) | hw <;> subst hw <;> simp at h

theorem digit_ne_bq {c : Char} (h : c.isDigit = true) : c ≠ bq := by
  intro he
  rw [he] at h
  exact absurd h (by decide)

theorem parseNumber_head {s : List Char} {p : JNum × List Char}
    (h : parseNumber s = some p) :
    ∃ c r, s = c :: r ∧ jsWhitespace c = false ∧ c ≠ bq := by
  cases s with
  | nil => simp [parseNumber] at h
  | cons c r =>
    refine ⟨c, r, rfl, ?_⟩
    simp only [parseNumber] at h
    split_ifs at h with h1
    · subst h1; exact ⟨by decide, by decide⟩
    · simp only [parseUnsigned] at h
      split_ifs at h with h2 h3
      · subst h2; exact ⟨by decide, by decide⟩
      · exact ⟨digit_not_ws h3, digit_ne_bq h3⟩

theorem parseValue_head {f : Nat} {s : List Char} {pr : JSValue × List Char}
    (h : parseValue f s = some pr) :
    ∃ c s', s = c :: s' ∧ jsWhitespace c = false ∧ c ≠ bq := by
  cases f with
  | zero => simp [parseValue, mkParsers] at h
  | succ f =>
    cases s with
    | nil => simp [parseValue, mkParsers] at h
    | cons c r =>
      refine ⟨c, r, rfl, ?_⟩
      simp only [parseValue, mkParsers] at h
      split_ifs at h <;> try (subst_vars; exact ⟨by decide, by decide⟩)
      cases hp2 : parseNumber (c :: r) with
      | none => rw [hp2] at h; simp at h
      | some p =>
        obtain ⟨c2, r2, heq, hws, hbq⟩ := parseNumber_head hp2
        injection heq with e1 e2
        subst e1
        exact ⟨hws, hbq⟩

theorem jsonParse_trimLeft {t : List Char} {v : JSValue} (h : jsonParse t = some v) :
    ∃ c s', trimLeftJS t = c :: s' ∧ jsWhitespace c = false ∧ c ≠ bq := by
  unfold jsonParse at h
  cases hp : parseValue (16 * t.length + 16) (skipWs t) with
  | none => rw [hp] at h; simp at h
  | some p =>
    obtain ⟨c, s', heq, hws, hbq⟩ := parseValue_head hp
    exact ⟨c, s', dropWhile_sub (fun x hx => jsonWhitespace_le_js hx) hws heq, hws, hbq⟩

/-! ## What `cleanText` does to bare, fenced and whitespace-padded texts -/

theorem startsWith_fenceJson_false {c : Char} (hbq : c ≠ bq) (s : List Char) :
    startsWithL fenceJson (c :: s) = false := by
  have hne : (bq == c) = false := by
    simp only [beq_eq_false_iff_ne, ne_eq]
    exact fun e => hbq e.symm
  simp [fenceJson, startsWithL, hne]

theorem startsWith_fence3_false {c : Char} (hbq : c ≠ bq) (s : List Char) :
    startsWithL fence3 (c :: s) = false := by
  have hne : (bq == c) = false := by
    simp only [beq_eq_false_iff_ne, ne_eq]
    exact fun e => hbq e.symm
  simp [fence3, startsWithL, hne]

/-- On a text whose trimmed form does not start with a backtick (as any
valid JSON text's does not), `cleanText` is exactly `trim`. -/
theorem cleanText_eq_trim {t : List Char} {c : Char} {s' : List Char}
    (h : trimLeftJS t = c :: s') (hw : jsWhitespace c = false) (hbq : c ≠ bq) :
    cleanText t = jsTrim t := by
  have hjt : jsTrim t = c :: trimRightJS s' := by
    unfold jsTrim
    rw [h, trimRight_cons_of_neg hw]
  simp only [cleanText]
  rw [hjt, startsWith_fenceJson_false hbq, startsWith_fence3_false hbq]
  simp

theorem cleanText_wrapJsonFence {t : List Char} {c : Char} {s' : List Char}
    (h : trimLeftJS t = c :: s') :
    cleanText (wrapJsonFence t) = jsTrim t := by
  have hcons : wrapJsonFence t
      = bq :: ([bq, bq, 'j', 's', 'o', 'n'] ++ ('\n' :: (t ++ '\n' :: fence3))) := by
    simp [wrapJsonFence, fenceJson]
  have hrev : (wrapJsonFence t).reverse
      = bq :: (bq :: (bq :: ('\n' :: (t.reverse ++ ['\n', 'n', 'o', 's', 'j', bq, bq, bq])))) := by
    simp [wrapJsonFence, fenceJson, fence3]
  have h1 : trimLeftJS (wrapJsonFence t) = wrapJsonFence t := by
    rw [hcons]; exact trimLeft_cons_of_neg (by decide)
  have htrim : jsTrim (wrapJsonFence t) = wrapJsonFence t := by
    unfold jsTrim
    rw [h1, trimRight_of_reverse_head hrev (by decide)]
  have hstarts : startsWithL fenceJson (wrapJsonFence t) = true := by
    unfold wrapJsonFence
    exact startsWithL_append_self _ _
  have hopen : stripOpenFence fenceJson (wrapJsonFence t) = c :: (s' ++ '\n' :: fence3) := by
    unfold stripOpenFence
    rw [hstarts]
    simp only [if_true]
    have hdrop : (wrapJsonFence t).drop fenceJson.length = '\n' :: (t ++ '\n' :: fence3) := by
      unfold wrapJsonFence
      exact List.drop_left _ _
    rw [hdrop, List.dropWhile_cons]
    simp only [show jsWhitespace '\n' = true from by decide, if_true]
    exact dropWhile_append_of_ne_nil h _
  have hrev2 : (c :: (s' ++ '\n' :: fence3)).reverse
      = bq :: (bq :: (bq :: ('\n' :: (s'.reverse ++ [c])))) := by
    simp [fence3]
  have hends : endsWithL fence3 (c :: (s' ++ '\n' :: fence3)) = true := by
    unfold endsWithL
    rw [hrev2]
    simp [fence3, startsWithL]
  have hdr : dropRightN 3 (c :: (s' ++ '\n' :: fence3)) = (c :: s') ++ ['\n'] := by
    unfold dropRightN
    rw [hrev2]
    simp [List.drop]
  have hclose : stripCloseFence (c :: (s' ++ '\n' :: fence3)) = trimRightJS (c :: s') := by
    unfold stripCloseFence
    rw [hends]
    simp only [if_true]
    rw [hdr, trimRight_append_ws (by intro x hx; simp at hx; subst hx; decide) (c :: s')]
  simp only [cleanText]
  rw [htrim, hstarts]
  simp only [if_true]
  rw [hopen, hclose]
  unfold jsTrim
  rw [h]

theorem cleanText_wrapGenFence {t : List Char} {c : Char} {s' : List Char}
    (h : trimLeftJS t = c :: s') :
    cleanText (wrapGenFence t) = jsTrim t := by
  have hcons : wrapGenFence t = bq :: (bq :: (bq :: ('\n' :: (t ++ '\n' :: fence3)))) := by
    simp [wrapGenFence, fence3]
  have hrev : (wrapGenFence t).reverse
      = bq :: (bq :: (bq :: ('\n' :: (t.reverse ++ ['\n', bq, bq, bq])))) := by
    simp [wrapGenFence, fence3]
  have h1 : trimLeftJS (wrapGenFence t) = wrapGenFence t := by
    rw [hcons]; exact trimLeft_cons_of_neg (by decide)
  have htrim : jsTrim (wrapGenFence t) = wrapGenFence t := by
    unfold jsTrim
    rw [h1, trimRight_of_reverse_head hrev (by decide)]
  have hnotJson : startsWithL fenceJson (wrapGenFence t) = false := by
    rw [hcons]
    simp [fenceJson, startsWithL]
  have hstarts : startsWithL fence3 (wrapGenFence t) = true := by
    unfold wrapGenFence
    exact startsWithL_append_self _ _
  have hopen : stripOpenFence fence3 (wrapGenFence t) = c :: (s' ++ '\n' :: fence3) := by
    unfold stripOpenFence
    rw [hstarts]
    simp only [if_true]
    have hdrop : (wrapGenFence t).drop fence3.length = '\n' :: (t ++ '\n' :: fence3) := by
      unfold wrapGenFence
      exact List.drop_left _ _
    rw [hdrop, List.dropWhile_cons]
    simp only [show jsWhitespace '\n' = true from by decide, if_true]
    exact dropWhile_append_of_ne_nil h _
  have hrev2 : (c :: (s' ++ '\n' :: fence3)).reverse
      = bq :: (bq :: (bq :: ('\n' :: (s'.reverse ++ [c])))) := by
    simp [fence3]
  have hends : endsWithL fence3 (c :: (s' ++ '\n' :: fence3)) = true := by
    unfold endsWithL
    rw [hrev2]
    simp [fence3, startsWithL]
  have hdr : dropRightN 3 (c :: (s' ++ '\n' :: fence3)) = (c :: s') ++ ['\n'] := by
    unfold dropRightN
    rw [hrev2]
    simp [List.drop]
  have hclose : stripCloseFence (c :: (s' ++ '\n' :: fence3)) = trimRightJS (c :: s') := by
    unfold stripCloseFence
    rw [hends]
    simp only [if_true]
    rw [hdr, trimRight_append_ws (by intro x hx; simp at hx; subst hx; decide) (c :: s')]
  simp only [cleanText]
  rw [htrim, hnotJson, hstarts]
  simp only [Bool.false_eq_true, if_false, if_true]
  rw [hopen, hclose]
  unfold jsTrim
  rw [h]

theorem jsTrim_ws_pad {t : List Char} {c : Char} {s' : List Char}
    (h : trimLeftJS t = c :: s') {w1 w2 : List Char}
    (hw1 : ∀ x ∈ w1, jsWhitespace x = true) (hw2 : ∀ x ∈ w2, jsWhitespace x = true) :
    jsTrim (w1 ++ t ++ w2) = jsTrim t := by
  unfold jsTrim
  have hl : trimLeftJS (w1 ++ t ++ w2) = (c :: s') ++ w2 := by
    unfold trimLeftJS
    rw [List.append_assoc, dropWhile_all (t ++ w2) hw1]
    exact dropWhile_append_of_ne_nil h w2
  rw [hl, trimRight_append_ws hw2, h]

/-! ## The claims -/

/-- Claim C1: for every raw AI response whose trimmed, fence-stripped form
is not valid JSON, or whose parsed value fails required-field validation,
the extraction flow takes the ValidationError path (the parse-failure
toast), the Result Store keeps its previous contents, and no record is
published. -/
theorem normalizer_failure_leaves_store_unchanged (url text : List Char)
    (db : Except Unit Unit) (store0 : Option JSValue)
    (h : jsonParse (cleanText text) = none
      ∨ ∃ v, jsonParse (cleanText text) = some v ∧ validateReceipt v = false) :
    (analyzeReceipt ⟨.ok url, .ok text, db⟩ store0).store = store0
    ∧ Event.toastFailure FailKind.parse ∈ (analyzeReceipt ⟨.ok url, .ok text, db⟩ store0).events
    ∧ ∀ v, Event.publish v ∉ (analyzeReceipt ⟨.ok url, .ok text, db⟩ store0).events := by
  rcases h with h | ⟨v, hv, hval⟩
  · simp [analyzeReceipt, h]
  · simp [analyzeReceipt, hv, hval]

theorem normalizer_failure_leaves_store_unchanged_witness :
    (analyzeReceipt ⟨.ok [], .ok rawNotJson, .ok ()⟩ (some valGoodReceipt)).store
        = some valGoodReceipt
    ∧ Event.toastFailure FailKind.parse
        ∈ (analyzeReceipt ⟨.ok [], .ok rawNotJson, .ok ()⟩ (some valGoodReceipt)).events
    ∧ ∀ v, Event.publish v
        ∉ (analyzeReceipt ⟨.ok [], .ok rawNotJson, .ok ()⟩ (some valGoodReceipt)).events :=
  normalizer_failure_leaves_store_unchanged [] rawNotJson (.ok ()) (some valGoodReceipt)
    (Or.inl (by rfl))

/-- Claim C2: for a text that parses as a JSON object, wrapping it in a
```json fence, in a generic ``` fence, or in leading/trailing whitespace
gives the Normalizer the same parsed object as the bare text. -/
theorem normalizer_fence_invariance (t : List Char) (kvs : List (List Char × JSValue))
    (h : jsonParse t = some (JSValue.obj kvs)) :
    jsonParse (cleanText (wrapJsonFence t)) = jsonParse (cleanText t)
    ∧ jsonParse (cleanText (wrapGenFence t)) = jsonParse (cleanText t)
    ∧ ∀ w1 w2 : List Char, (∀ x ∈ w1, jsWhitespace x = true) →
        (∀ x ∈ w2, jsWhitespace x = true) →
        jsonParse (cleanText (w1 ++ t ++ w2)) = jsonParse (cleanText t) := by
  obtain ⟨c, s', htl, hws, hbq⟩ := jsonParse_trimLeft h
  have hbare : cleanText t = jsTrim t := cleanText_eq_trim htl hws hbq
  refine ⟨?_, ?_, ?_⟩
  · rw [cleanText_wrapJsonFence htl, hbare]
  · rw [cleanText_wrapGenFence htl, hbare]
  · intro w1 w2 hw1 hw2
    have htl2 : trimLeftJS (w1 ++ t ++ w2) = c :: (s' ++ w2) := by
      unfold trimLeftJS
      rw [List.append_assoc, dropWhile_all (t ++ w2) hw1]
      exact dropWhile_append_of_ne_nil htl w2
    rw [cleanText_eq_trim htl2 hws hbq, jsTrim_ws_pad htl hw1 hw2, hbare]

theorem normalizer_fence_invariance_witness :
    jsonParse (cleanText (wrapJsonFence sampleObjText)) = jsonParse (cleanText sampleObjText)
    ∧ jsonParse (cleanText (wrapGenFence sampleObjText)) = jsonParse (cleanText sampleObjText)
    ∧ jsonParse (cleanText ([' '] ++ sampleObjText ++ ['\n']))
        = jsonParse (cleanText sampleObjText) :=
  have H := normalizer_fence_invariance sampleObjText sampleObjFields (by rfl)
  ⟨H.1, H.2.1, H.2.2 [' '] ['\n'] (by decide) (by decide)⟩

/-- Claim C3: a syntactically valid parsed value missing `merchant`,
`total` or `items` fails validation (which is exactly the truthiness of
those three accesses) and is not published; conversely a validated parse
result is published verbatim, with no shape coercion. -/
theorem normalizer_missing_fields_rejected (url text : List Char)
    (db : Except Unit Unit) (store0 : Option JSValue) (v : JSValue)
    (hp : jsonParse (cleanText text) = some v)
    (hm : jsGet v kMerchant = none ∨ jsGet v kTotal = none ∨ jsGet v kItems = none) :
    validateReceipt v = false
    ∧ (analyzeReceipt ⟨.ok url, .ok text, db⟩ store0).store = store0
    ∧ Event.toastFailure FailKind.parse ∈ (analyzeReceipt ⟨.ok url, .ok text, db⟩ store0).events
    ∧ (∀ w, Event.publish w ∉ (analyzeReceipt ⟨.ok url, .ok text, db⟩ store0).events)
    ∧ ∀ text2 w, jsonParse (cleanText text2) = some w → validateReceipt w = true →
        (analyzeReceipt ⟨.ok url, .ok text2, db⟩ store0).store = some w := by
  have hval : validateReceipt v = false := by
    unfold validateReceipt
    rcases hm with h | h | h <;> simp [h, truthy]
  refine ⟨hval, ?_, ?_, ?_, ?_⟩
  · simp [analyzeReceipt, hp, hval]
  · simp [analyzeReceipt, hp, hval]
  · simp [analyzeReceipt, hp, hval]
  · intro text2 w hp2 hv2
    cases db <;> simp [analyzeReceipt, hp2, hv2]

theorem normalizer_missing_fields_rejected_witness :
    validateReceipt valNoMerchant = false
    ∧ (analyzeReceipt ⟨.ok [], .ok rawNoMerchant, .ok ()⟩ none).store = none
    ∧ Event.toastFailure FailKind.parse
        ∈ (analyzeReceipt ⟨.ok [], .ok rawNoMerchant, .ok ()⟩ none).events
    ∧ (∀ w, Event.publish w ∉ (analyzeReceipt ⟨.ok [], .ok rawNoMerchant, .ok ()⟩ none).events)
    ∧ ∀ text2 w, jsonParse (cleanText text2) = some w → validateReceipt w = true →
        (analyzeReceipt ⟨.ok [], .ok text2, .ok ()⟩ none).store = some w :=
  normalizer_missing_fields_rejected [] rawNoMerchant (.ok ()) none valNoMerchant
    (by rfl) (Or.inl (by rfl))

/-- Claim C4 as stated is false: the file-picker change handler forwards a
file whose declared media type does not begin with `image/` — here a PDF
is recorded and handed to `onUpload`. -/
theorem fileSelect_forwards_non_image :
    (handleFileSelect [pdfFile] intakeInit).uploads = [pdfFile]
    ∧ startsWithL imageTypeTag pdfFile.type = false :=
  ⟨rfl, by decide⟩

/-- Claim C4, amended: only the pointer-drop path filters on the `image/`
media type (silently ignoring other files); the file-picker change path
records and forwards whatever file the event delivers. -/
theorem intake_media_type_filtering :
    (∀ (f : JSFile) (fs : List JSFile) (st : IntakeState),
        startsWithL imageTypeTag f.type = false →
          handleDrop (f :: fs) st = { st with dragActive := false })
    ∧ (∀ (f : JSFile) (fs : List JSFile) (st : IntakeState),
        startsWithL imageTypeTag f.type = true →
          (handleDrop (f :: fs) st).uploads = st.uploads ++ [f]
          ∧ (handleDrop (f :: fs) st).selectedFile = some f)
    ∧ ∀ (f : JSFile) (fs : List JSFile) (st : IntakeState),
        (handleFileSelect (f :: fs) st).uploads = st.uploads ++ [f]
        ∧ (handleFileSelect (f :: fs) st).selectedFile = some f := by
  refine ⟨?_, ?_, ?_⟩ <;> intro f fs st
  · intro h
    simp [handleDrop, h]
  · intro h
    simp [handleDrop, h]
  · exact ⟨rfl, rfl⟩

/-- Claim C5: on every run of the extraction flow the analyzing flag is
set to true first, and every terminating path ends with the flag reset to
false. -/
theorem analyzing_flag_toggled_every_path (o : Oracles) (store0 : Option JSValue) :
    (analyzeReceipt o store0).analyzing = false
    ∧ (analyzeReceipt o store0).events.head? = some (Event.setAnalyzing true)
    ∧ (analyzeReceipt o store0).events.getLast? = some (Event.setAnalyzing false) := by
  obtain ⟨up, ai, db⟩ := o
  cases up with
  | error e => exact ⟨rfl, rfl, rfl⟩
  | ok url =>
    cases ai with
    | error e => exact ⟨rfl, rfl, rfl⟩
    | ok text =>
      cases hp : jsonParse (cleanText text) with
      | none => simp [analyzeReceipt, hp]
      | some v =>
        cases hval : validateReceipt v with
        | false => simp [analyzeReceipt, hp, hval]
        | true => cases db <;> simp [analyzeReceipt, hp, hval]

/-- Claim C6: when normalization succeeds but the persistence call fails,
the failure is logged (`dbWarn`) and swallowed: the record is still
published, the success toast naming item count and merchant is still
emitted, and no failure toast appears. -/
theorem persistence_failure_swallowed (url text : List Char) (store0 : Option JSValue)
    (v : JSValue) (hp : jsonParse (cleanText text) = some v)
    (hv : validateReceipt v = true) :
    (analyzeReceipt ⟨.ok url, .ok text, .error ()⟩ store0).store = some v
    ∧ Event.publish v ∈ (analyzeReceipt ⟨.ok url, .ok text, .error ()⟩ store0).events
    ∧ Event.dbCall ∈ (analyzeReceipt ⟨.ok url, .ok text, .error ()⟩ store0).events
    ∧ Event.dbWarn ∈ (analyzeReceipt ⟨.ok url, .ok text, .error ()⟩ store0).events
    ∧ Event.toastSuccess (itemsLenOf v) (jsGet v kMerchant)
        ∈ (analyzeReceipt ⟨.ok url, .ok text, .error ()⟩ store0).events
    ∧ ∀ k, Event.toastFailure k ∉ (analyzeReceipt ⟨.ok url, .ok text, .error ()⟩ store0).events := by
  simp [analyzeReceipt, hp, hv]

theorem persistence_failure_swallowed_witness :
    (analyzeReceipt ⟨.ok [], .ok rawGoodReceipt, .error ()⟩ none).store = some valGoodReceipt
    ∧ Event.publish valGoodReceipt
        ∈ (analyzeReceipt ⟨.ok [], .ok rawGoodReceipt, .error ()⟩ none).events
    ∧ Event.dbCall ∈ (analyzeReceipt ⟨.ok [], .ok rawGoodReceipt, .error ()⟩ none).events
    ∧ Event.dbWarn ∈ (analyzeReceipt ⟨.ok [], .ok rawGoodReceipt, .error ()⟩ none).events
    ∧ Event.toastSuccess (itemsLenOf valGoodReceipt) (jsGet valGoodReceipt kMerchant)
        ∈ (analyzeReceipt ⟨.ok [], .ok rawGoodReceipt, .error ()⟩ none).events
    ∧ ∀ k, Event.toastFailure k
        ∉ (analyzeReceipt ⟨.ok [], .ok rawGoodReceipt, .error ()⟩ none).events :=
  persistence_failure_swallowed [] rawGoodReceipt none valGoodReceipt (by rfl) (by rfl)

/-- Claim C7: within one extraction cycle the steps are strictly
sequential — any AI call comes after the upload call, any state
replacement comes after the AI call, and when the upload fails no AI call
is attempted, a failure toast is shown, and the analyzing flag ends
false. -/
theorem extraction_steps_sequential (o : Oracles) (store0 : Option JSValue) :
    (Event.aiCall ∈ (analyzeReceipt o store0).events →
      occursBefore Event.uploadCall Event.aiCall (analyzeReceipt o store0).events)
    ∧ (∀ v, Event.publish v ∈ (analyzeReceipt o store0).events →
        occursBefore Event.aiCall (Event.publish v) (analyzeReceipt o store0).events)
    ∧ (o.upload = Except.error () →
        Event.aiCall ∉ (analyzeReceipt o store0).events
        ∧ Event.toastFailure FailKind.general ∈ (analyzeReceipt o store0).events
        ∧ (analyzeReceipt o store0).analyzing = false) := by
  obtain ⟨up, ai, db⟩ := o
  cases up with
  | error e =>
    have hE : (analyzeReceipt ⟨Except.error e, ai, db⟩ store0).events
        = [Event.setAnalyzing true, Event.uploadCall, Event.toastFailure FailKind.general,
            Event.setAnalyzing false] := rfl
    refine ⟨?_, ?_, ?_⟩
    · intro hmem
      rw [hE] at hmem
      simp at hmem
    · intro v hmem
      rw [hE] at hmem
      simp at hmem
    · intro _
      refine ⟨?_, ?_, rfl⟩
      · rw [hE]; simp
      · rw [hE]; simp
  | ok url =>
    cases ai with
    | error e =>
      have hE : (analyzeReceipt ⟨Except.ok url, Except.error e, db⟩ store0).events
          = [Event.setAnalyzing true, Event.uploadCall, Event.aiCall,
              Event.toastFailure FailKind.general, Event.setAnalyzing false] := rfl
      refine ⟨fun _ => ⟨1, 2, by omega, by rw [hE]; rfl, by rw [hE]; rfl⟩, ?_, ?_⟩
      · intro v hmem
        rw [hE] at hmem
        simp at hmem
      · intro hcon
        exact absurd hcon (by simp)
    | ok text =>
      cases hp : jsonParse (cleanText text) with
      | none =>
        have hE : (analyzeReceipt ⟨Except.ok url, Except.ok text, db⟩ store0).events
            = [Event.setAnalyzing true, Event.uploadCall, Event.aiCall,
                Event.toastFailure FailKind.parse, Event.setAnalyzing false] := by
          simp [analyzeReceipt, hp]
        refine ⟨fun _ => ⟨1, 2, by omega, by rw [hE]; rfl, by rw [hE]; rfl⟩, ?_, ?_⟩
        · intro v hmem
          rw [hE] at hmem
          simp at hmem
        · intro hcon
          exact absurd hcon (by simp)
      | some v =>
        cases hval : validateReceipt v with
        | false =>
          have hE : (analyzeReceipt ⟨Except.ok url, Except.ok text, db⟩ store0).events
              = [Event.setAnalyzing true, Event.uploadCall, Event.aiCall,
                  Event.toastFailure FailKind.parse, Event.setAnalyzing false] := by
            simp [analyzeReceipt, hp, hval]
          refine ⟨fun _ => ⟨1, 2, by omega, by rw [hE]; rfl, by rw [hE]; rfl⟩, ?_, ?_⟩
          · intro w hmem
            rw [hE] at hmem
            simp at hmem
          · intro hcon
            exact absurd hcon (by simp)
        | true =>
          cases db with
          | ok u =>
            have hE : (analyzeReceipt ⟨Except.ok url, Except.ok text, Except.ok u⟩ store0).events
                = [Event.setAnalyzing true, Event.uploadCall, Event.aiCall, Event.publish v,
                    Event.dbCall, Event.toastSuccess (itemsLenOf v) (jsGet v kMerchant),
                    Event.setAnalyzing false] := by
              simp [analyzeReceipt, hp, hval]
            refine ⟨fun _ => ⟨1, 2, by omega, by rw [hE]; rfl, by rw [hE]; rfl⟩, ?_, ?_⟩
            · intro w hmem
              rw [hE] at hmem
              simp at hmem
              subst hmem
              exact ⟨2, 3, by omega, by rw [hE]; rfl, by rw [hE]; rfl⟩
            · intro hcon
              exact absurd hcon (by simp)
          | error u =>
            have hE : (analyzeReceipt
                  ⟨Except.ok url, Except.ok text, Except.error u⟩ store0).events
                = [Event.setAnalyzing true, Event.uploadCall, Event.aiCall, Event.publish v,
                    Event.dbCall, Event.dbWarn,
                    Event.toastSuccess (itemsLenOf v) (jsGet v kMerchant),
                    Event.setAnalyzing false] := by
              simp [analyzeReceipt, hp, hval]
            refine ⟨fun _ => ⟨1, 2, by omega, by rw [hE]; rfl, by rw [hE]; rfl⟩, ?_, ?_⟩
            · intro w hmem
              rw [hE] at hmem
              simp at hmem
              subst hmem
              exact ⟨2, 3, by omega, by rw [hE]; rfl, by rw [hE]; rfl⟩
            · intro hcon
              exact absurd hcon (by simp)

/-- Claim C8: a chat message submitted while no record exists returns the
fixed instructional string, and the AI-completion collaborator is not
invoked (the flag in the second component). -/
theorem chat_without_record_fixed_reply (ai : Except Unit (List Char)) (msg : List Char) :
    handleChatMessage ai none msg = (noReceiptReply, false) := rfl

/-- Claim C9 as stated is false: on a record whose `subtotal` field is
present but zero, the rendered totals section contains no subtotal line —
the JSX guard tests truthiness, not presence. -/
theorem zero_subtotal_line_hidden :
    zeroSubtotalReceipt.subtotal = some 0
    ∧ renderTotals zeroSubtotalReceipt
        = [TotalsLine.separator, TotalsLine.totalLine 10] :=
  ⟨rfl, by decide⟩

/-- Claim C9, amended: the totals section shows the subtotal line exactly
when `subtotal` is present and nonzero, the tax line exactly when `tax` is
present and nonzero, and always ends with the total line. -/
theorem totals_section_rendering (d : ReceiptDataR) :
    ((∃ q, d.subtotal = some q ∧ q ≠ 0) ↔ ∃ q, TotalsLine.subtotalLine q ∈ renderTotals d)
    ∧ ((∃ q, d.tax = some q ∧ q ≠ 0) ↔ ∃ q, TotalsLine.taxLine q ∈ renderTotals d)
    ∧ (renderTotals d).getLast? = some (TotalsLine.totalLine d.total) := by
  rcases hsub : d.subtotal with _ | qs <;> rcases htax : d.tax with _ | qt
  · refine ⟨?_, ?_, ?_⟩ <;> simp [renderTotals, numTruthy, hsub, htax]
  · by_cases hqt : qt = 0 <;>
      refine ⟨?_, ?_, ?_⟩ <;> simp [renderTotals, numTruthy, hsub, htax, hqt]
  · by_cases hqs : qs = 0 <;>
      refine ⟨?_, ?_, ?_⟩ <;> simp [renderTotals, numTruthy, hsub, htax, hqs]
  · by_cases hqs : qs = 0 <;> by_cases hqt : qt = 0 <;>
      refine ⟨?_, ?_, ?_⟩ <;> simp [renderTotals, numTruthy, hsub, htax, hqs, hqt]

/-- Claim C10: a parsed object carrying all three required keys still
fails validation when `merchant` is the empty string or `total` is zero,
because presence is tested by truthiness; the store is unchanged and
nothing is published. -/
theorem truthy_validation_rejects_empty_and_zero (url text : List Char)
    (db : Except Unit Unit) (store0 : Option JSValue) (v : JSValue)
    (hp : jsonParse (cleanText text) = some v)
    (_hm : (jsGet v kMerchant).isSome = true)
    (_ht : (jsGet v kTotal).isSome = true)
    (_hi : (jsGet v kItems).isSome = true)
    (hz : jsGet v kMerchant = some (JSValue.str [])
      ∨ ∃ n, jsGet v kTotal = some (JSValue.num n) ∧ n.mantissa = 0) :
    validateReceipt v = false
    ∧ (analyzeReceipt ⟨.ok url, .ok text, db⟩ store0).store = store0
    ∧ Event.toastFailure FailKind.parse
        ∈ (analyzeReceipt ⟨.ok url, .ok text, db⟩ store0).events
    ∧ ∀ w, Event.publish w ∉ (analyzeReceipt ⟨.ok url, .ok text, db⟩ store0).events := by
  have hval : validateReceipt v = false := by
    unfold validateReceipt
    rcases hz with h | ⟨n, h, hm0⟩
    · simp [h, truthy]
    · simp [h, truthy, hm0]
  refine ⟨hval, ?_, ?_, ?_⟩ <;> simp [analyzeReceipt, hp, hval]

theorem truthy_validation_rejects_empty_and_zero_witness :
    validateReceipt valEmptyMerchant = false
    ∧ (analyzeReceipt ⟨.ok [], .ok rawEmptyMerchant, .ok ()⟩ none).store = none
    ∧ Event.toastFailure FailKind.parse
        ∈ (analyzeReceipt ⟨.ok [], .ok rawEmptyMerchant, .ok ()⟩ none).events
    ∧ ∀ w, Event.publish w
        ∉ (analyzeReceipt ⟨.ok [], .ok rawEmptyMerchant, .ok ()⟩ none).events :=
  truthy_validation_rejects_empty_and_zero [] rawEmptyMerchant (.ok ()) none valEmptyMerchant
    (by rfl) (by rfl) (by rfl) (by rfl) (Or.inl (by rfl))

end ReceiptApp
